import Mathlib

/-!
# Verification of the DCA simulator and risk scorer (`src/app.py`)

Shallow embedding of the two pure computation engines of the repository:
the dollar-cost-averaging simulation (`simulate` plus the strategy
generation and best-strategy selection of `run_dca_simulator`) and the
five risk factor scorers with their aggregator (`compute_risk_scores`).

Monetary and share quantities are modelled as rationals (`ℚ`), standing
for the source's full-precision floating-point accumulation.  Pandas'
NaN values (from `0/0` and from `min` over an all-NaN series) are
modelled with `Option ℚ`: `none` is NaN, and the skip-NaN minimum of
pandas `Series.min` is `minSkipNA`.  Python's `round(x, 2)` (round half
to even on the scaled value) is `pyRound2`.
-/

/-- A row of the prepared price table: a date (day serial number, so the
weekday is `date % 7` with `0` = Monday, matching pandas `dayofweek`)
and the close price. -/
structure PricePoint where
  date : ℕ
  close : ℚ
  deriving DecidableEq, Repr

/-- The running state and recorded series of `simulate`'s main loop:
final `total_shares` and `total_invested`, plus the per-row
`portfolio_values` and `invested_over_time` lists. -/
structure SimTrace where
  totalShares : ℚ
  totalInvested : ℚ
  portfolioValues : List ℚ
  investedOverTime : List ℚ
  deriving DecidableEq, Repr

/-- The loop of `simulate` (src/app.py lines 23-31): iterate the rows
zipped with the buy mask; on a buy row add `amount / close` shares and
`amount` invested; record `total_shares * close` and the running
invested amount for every row. -/
def runSim (amount : ℚ) : ℚ → ℚ → List (PricePoint × Bool) → SimTrace
  | sh, inv, [] => ⟨sh, inv, [], []⟩
  | sh, inv, (p, b) :: rest =>
    let sh' := if b then sh + amount / p.close else sh
    let inv' := if b then inv + amount else inv
    let t := runSim amount sh' inv' rest
    ⟨t.totalShares, t.totalInvested, sh' * p.close :: t.portfolioValues,
      inv' :: t.investedOverTime⟩

/-- The trace of a simulation started from zero shares and zero invested. -/
def simTrace (rows : List PricePoint) (amount : ℚ) (mask : List Bool) : SimTrace :=
  runSim amount 0 0 (rows.zip mask)

/-- Total accumulated shares at the end of the run (full precision). -/
def simTotalShares (rows : List PricePoint) (amount : ℚ) (mask : List Bool) : ℚ :=
  (simTrace rows amount mask).totalShares

/-- Total invested at the end of the run (full precision). -/
def simTotalInvested (rows : List PricePoint) (amount : ℚ) (mask : List Bool) : ℚ :=
  (simTrace rows amount mask).totalInvested

/-- Final portfolio value: `portfolio_values[-1] if portfolio_values else 0`
(src/app.py line 36), at full precision. -/
def simFinalValue (rows : List PricePoint) (amount : ℚ) (mask : List Bool) : ℚ :=
  (simTrace rows amount mask).portfolioValues.getLast?.getD 0

/-- Gain at full precision: `gain = final_value - total_invested`
(src/app.py line 37). -/
def simGain (rows : List PricePoint) (amount : ℚ) (mask : List Bool) : ℚ :=
  simFinalValue rows amount mask - simTotalInvested rows amount mask

/-- Running maximum continued from a prior maximum `m`. -/
def cummaxFrom (m : ℚ) : List ℚ → List ℚ
  | [] => []
  | x :: xs => max m x :: cummaxFrom (max m x) xs

/-- Pandas `Series.cummax` (src/app.py line 40). -/
def cummax : List ℚ → List ℚ
  | [] => []
  | x :: xs => x :: cummaxFrom x xs

/-- One entry of `(portfolio - running_max) / running_max` (src/app.py
line 41).  Pandas evaluates `0/0` to NaN; under the data-model
invariant `close > 0` every portfolio value is nonnegative, so a zero
running maximum forces a zero numerator, and the entry is NaN,
modelled `none`. -/
def ddEntry (pv rm : ℚ) : Option ℚ :=
  if rm = 0 then none else some ((pv - rm) / rm)

/-- The per-row drawdown series of src/app.py line 41. -/
def drawdowns (pvs : List ℚ) : List (Option ℚ) :=
  List.zipWith ddEntry pvs (cummax pvs)

/-- Pandas `Series.min` with its default `skipna=True`: the minimum of
the non-NaN entries, or NaN (`none`) when every entry is NaN or the
series is empty. -/
def minSkipNA : List (Option ℚ) → Option ℚ
  | [] => none
  | none :: rest => minSkipNA rest
  | some x :: rest =>
    match minSkipNA rest with
    | none => some x
    | some y => some (min x y)

/-- Python's banker's rounding of a rational to the nearest integer:
round half to even. -/
def bankRound (q : ℚ) : ℤ :=
  if q - ⌊q⌋ < 1 / 2 then ⌊q⌋
  else if 1 / 2 < q - ⌊q⌋ then ⌊q⌋ + 1
  else if Even ⌊q⌋ then ⌊q⌋ else ⌊q⌋ + 1

/-- Python's `round(x, 2)` on the rational model of the float. -/
def pyRound2 (q : ℚ) : ℚ :=
  (bankRound (q * 100) : ℚ) / 100

/-- The dictionary returned by `simulate` (src/app.py lines 44-53):
rounded summary statistics plus the full-precision recorded series.
`maxDrawdownPct` is `Option ℚ` because pandas yields NaN when every
drawdown entry is NaN (and `round(nan, 2)` is NaN). -/
structure SimResult where
  totalInvested : ℚ
  finalValue : ℚ
  gainAbs : ℚ
  gainPct : ℚ
  maxDrawdownPct : Option ℚ
  buyCount : ℕ
  portfolio : List ℚ
  invested : List ℚ
  deriving DecidableEq, Repr

/-- The DCA simulation `simulate(df, amount, buy_mask)` of src/app.py
lines 16-53.  `gain_pct` is 0 when `total_invested` is 0 (Python float
truthiness); `max_drawdown` is the skip-NaN minimum of the drawdown
series times 100. -/
def simulate (rows : List PricePoint) (amount : ℚ) (mask : List Bool) : SimResult :=
  let t := runSim amount 0 0 (rows.zip mask)
  let finalValue := t.portfolioValues.getLast?.getD 0
  let gain := finalValue - t.totalInvested
  let gainPct := if t.totalInvested = 0 then 0 else gain / t.totalInvested * 100
  let maxDrawdown := (minSkipNA (drawdowns t.portfolioValues)).map fun d => d * 100
  ⟨pyRound2 t.totalInvested, pyRound2 finalValue, pyRound2 gain, pyRound2 gainPct,
    maxDrawdown.map pyRound2, mask.count true, t.portfolioValues, t.investedOverTime⟩

/-- The caller's data guard `if len(df) < 2` of src/app.py lines 99-101:
`true` when enough rows remain to run the comparison. -/
def enoughData (rows : List PricePoint) : Bool :=
  decide (2 ≤ rows.length)

/-- Weekday names, in the generation order of src/app.py line 10. -/
def WEEKDAYS : List String :=
  ["Monday", "Tuesday", "Wednesday", "Thursday", "Friday"]

/-- The strategy set of src/app.py lines 106-112: the daily strategy
(all-true mask, a fifth of the weekly budget per buy) followed by one
strategy per weekday (mask true where `dayofweek` matches, full weekly
budget per buy). -/
def strategyList (rows : List PricePoint) (w : ℚ) : List (String × List Bool × ℚ) :=
  ("Daily ($/5 per day)", rows.map fun _ => true, w / 5) ::
    WEEKDAYS.enum.map fun dn =>
      ("Every " ++ dn.2, rows.map fun p => p.date % 7 == dn.1, w)

/-- The surviving strategies: src/app.py line 117 skips a strategy whose
mask sums to 0. -/
def surviving (rows : List PricePoint) (w : ℚ) : List (String × List Bool × ℚ) :=
  (strategyList rows w).filter fun s => !(s.2.1.count true == 0)

/-- The per-strategy results table of src/app.py lines 115-120, in
generation order. -/
def stratResults (rows : List PricePoint) (w : ℚ) : List (String × SimResult) :=
  (surviving rows w).map fun s => (s.1, simulate rows s.2.2 s.2.1)

/-- Pandas `Series.idxmax` as a linear scan: the first entry attaining
the maximum value, starting from a current best. -/
def idxmaxP : (String × ℚ) → List (String × ℚ) → String × ℚ
  | best, [] => best
  | best, x :: rest => if best.2 < x.2 then idxmaxP x rest else idxmaxP best rest

/-- The best-strategy selection of src/app.py line 133:
`comparison_df["Gain ($)"].idxmax()` over the rounded gain column of
the surviving strategies; `none` models the empty-results error path
(lines 122-124). -/
def best_strategy (rows : List PricePoint) (w : ℚ) : Option String :=
  match (stratResults rows w).map fun r => (r.1, r.2.gainAbs) with
  | [] => none
  | g :: gs => some (idxmaxP g gs).1

/-- Valuation scorer `score_valuation` (src/app.py lines 184-197). -/
def score_valuation (pe : ℚ) : ℤ :=
  if pe ≤ 0 then 0
  else if pe < 10 then 15
  else if pe ≤ 20 then 20
  else if pe ≤ 30 then 15
  else if pe ≤ 50 then 10
  else 5

/-- Profitability scorer `score_profitability` (src/app.py lines 200-211). -/
def score_profitability (eps : ℚ) : ℤ :=
  if eps ≤ 0 then 0
  else if eps < 1 then 5
  else if eps < 3 then 10
  else if eps < 6 then 15
  else 20

/-- Volatility scorer `score_volatility` (src/app.py lines 214-229). -/
def score_volatility (beta : ℚ) : ℤ :=
  if beta < 0 then 5
  else if beta ≤ 1 / 2 then 20
  else if beta ≤ 4 / 5 then 18
  else if beta ≤ 1 then 15
  else if beta ≤ 13 / 10 then 12
  else if beta ≤ 8 / 5 then 8
  else 4

/-- Size scorer `score_size` (src/app.py lines 232-245). -/
def score_size (marketcap : ℚ) : ℤ :=
  if 200000000000 ≤ marketcap then 20
  else if 50000000000 ≤ marketcap then 18
  else if 10000000000 ≤ marketcap then 15
  else if 2000000000 ≤ marketcap then 10
  else if 300000000 ≤ marketcap then 5
  else 2

/-- Price-strength scorer `score_price_strength` (src/app.py lines
248-263): position of the price within the 52-week range.  The source
binds `pct = (price - low52) / (high52 - low52)` once; it is inlined
here. -/
def score_price_strength (price high52 low52 : ℚ) : ℤ :=
  if high52 = low52 then 10
  else if 4 / 5 ≤ (price - low52) / (high52 - low52) then 20
  else if 3 / 5 ≤ (price - low52) / (high52 - low52) then 16
  else if 2 / 5 ≤ (price - low52) / (high52 - low52) then 12
  else if 1 / 5 ≤ (price - low52) / (high52 - low52) then 8
  else 4

/-- One validated row of the metrics table. -/
structure CompanyMetrics where
  pe : ℚ
  eps : ℚ
  beta : ℚ
  marketcap : ℚ
  price : ℚ
  high52 : ℚ
  low52 : ℚ
  deriving DecidableEq, Repr

/-- One output row of `compute_risk_scores`. -/
structure RiskScoreRow where
  valuation : ℤ
  profitability : ℤ
  volatility : ℤ
  size : ℤ
  priceStrength : ℤ
  composite : ℤ
  label : String
  deriving DecidableEq, Repr

/-- The risk label thresholds of src/app.py lines 283-290. -/
def risk_label (composite : ℤ) : String :=
  if 80 ≤ composite then "Low Risk"
  else if 60 ≤ composite then "Moderate Risk"
  else if 40 ≤ composite then "Elevated Risk"
  else "High Risk"

/-- The per-row body of `compute_risk_scores` (src/app.py lines 274-302):
the five factor scores, their sum as the composite, and the label. -/
def compute_risk_row (m : CompanyMetrics) : RiskScoreRow :=
  let val := score_valuation m.pe
  let prof := score_profitability m.eps
  let vol := score_volatility m.beta
  let sz := score_size m.marketcap
  let ps := score_price_strength m.price m.high52 m.low52
  let composite := val + prof + vol + sz + ps
  ⟨val, prof, vol, sz, ps, composite, risk_label composite⟩

/-- The orchestrator `compute_risk_scores` (src/app.py lines 271-303)
restricted to its pure per-row computation. -/
def compute_risk_scores (rows : List CompanyMetrics) : List RiskScoreRow :=
  rows.map compute_risk_row

/-- Metrics row of the spec's Scenario 3: PE=15, EPS=4, Beta=0.9,
MarketCap=100e9, Price=90, High52=100, Low52=50. -/
def mC1 : CompanyMetrics := ⟨15, 4, 9 / 10, 100000000000, 90, 100, 50⟩

/-- A two-day price series (a Monday then a Tuesday) whose closes move
from 1000 to 1001, used to compare the generated strategies. -/
def exC4 : List PricePoint := [⟨0, 1000⟩, ⟨1, 1001⟩]

/-- Transcription of the claim's valuation bucket table, evaluated
top-down from the largest bucket: pe ≤ 0 → 0; (0,10) → 15;
[10,20] → 20; (20,30] → 15; (30,50] → 10; > 50 → 5. -/
def valuationClaimBuckets (pe : ℚ) : ℤ :=
  if 50 < pe then 5
  else if 30 < pe then 10
  else if 20 < pe then 15
  else if 10 ≤ pe then 20
  else if 0 < pe then 15
  else 0

lemma minSkipNA_mem : ∀ {l : List (Option ℚ)} {m : ℚ}, minSkipNA l = some m → some m ∈ l := by
  intro l
  induction l with
  | nil => intro m h; simp [minSkipNA] at h
  | cons a rest ih =>
    intro m h
    cases a with
    | none =>
      rw [show minSkipNA (none :: rest) = minSkipNA rest from rfl] at h
      exact List.mem_cons_of_mem _ (ih h)
    | some x =>
      rw [show minSkipNA (some x :: rest)
            = (match minSkipNA rest with
               | none => some x
               | some y => some (min x y)) from rfl] at h
      cases hrest : minSkipNA rest with
      | none =>
        rw [hrest] at h
        simp only [Option.some.injEq] at h
        subst h
        exact List.mem_cons_self _ _
      | some y =>
        rw [hrest] at h
        simp only [Option.some.injEq] at h
        rcases min_choice x y with hmin | hmin
        · rw [hmin] at h; subst h; exact List.mem_cons_self _ _
        · rw [hmin] at h; subst h; exact List.mem_cons_of_mem _ (ih hrest)

lemma minSkipNA_isSome {q : ℚ} : ∀ {l : List (Option ℚ)}, some q ∈ l →
    ∃ m, minSkipNA l = some m := by
  intro l
  induction l with
  | nil => intro h; simp at h
  | cons a rest ih =>
    intro h
    rcases List.mem_cons.mp h with h | h
    · subst h
      rw [show minSkipNA (some q :: rest)
            = (match minSkipNA rest with
               | none => some q
               | some y => some (min q y)) from rfl]
      cases hrest : minSkipNA rest with
      | none => exact ⟨q, rfl⟩
      | some y => exact ⟨min q y, rfl⟩
    · obtain ⟨m, hm⟩ := ih h
      cases a with
      | none => exact ⟨m, by rw [show minSkipNA (none :: rest) = minSkipNA rest from rfl, hm]⟩
      | some x =>
        refine ⟨min x m, ?_⟩
        rw [show minSkipNA (some x :: rest)
              = (match minSkipNA rest with
                 | none => some x
                 | some y => some (min x y)) from rfl, hm]

lemma bankRound_nonpos {q : ℚ} (h : q ≤ 0) : bankRound q ≤ 0 := by
  have hfl : ⌊q⌋ ≤ 0 := Int.floor_nonpos h
  have hfl' : (⌊q⌋ : ℚ) ≤ q := Int.floor_le q
  unfold bankRound
  split_ifs with h1 h2 h3
  · exact hfl
  · have : ((⌊q⌋ + 1 : ℤ) : ℚ) < 1 := by push_cast; linarith
    have : ⌊q⌋ + 1 < 1 := by exact_mod_cast this
    omega
  · exact hfl
  · have : ((⌊q⌋ + 1 : ℤ) : ℚ) ≤ 1 := by push_cast; linarith
    have : ⌊q⌋ + 1 ≤ 1 := by exact_mod_cast this
    -- the half-even branch is only reached when the fraction is exactly 1/2,
    -- which for q ≤ 0 forces the floor to be negative
    have hlt : (⌊q⌋ : ℚ) < q := by linarith
    have : ⌊q⌋ < 0 := by
      by_contra hge
      push_neg at hge
      have h0 : ⌊q⌋ = 0 := le_antisymm hfl hge
      rw [h0] at hlt
      norm_num at hlt
      linarith
    omega

lemma pyRound2_nonpos {q : ℚ} (h : q ≤ 0) : pyRound2 q ≤ 0 := by
  unfold pyRound2
  have hbr : bankRound (q * 100) ≤ 0 := bankRound_nonpos (by linarith)
  have hbr' : ((bankRound (q * 100) : ℤ) : ℚ) ≤ 0 := by exact_mod_cast hbr
  rw [div_nonpos_iff]
  right
  exact ⟨hbr', by norm_num⟩

lemma pyRound2_zero : pyRound2 0 = 0 := by
  norm_num [pyRound2, bankRound]

lemma cummax_eq_cummaxFrom (x : ℚ) (xs : List ℚ) :
    cummax (x :: xs) = cummaxFrom x (x :: xs) := by
  simp [cummax, cummaxFrom, max_self]

lemma dd_cummaxFrom_nonpos : ∀ (xs : List ℚ) (m : ℚ), 0 ≤ m → (∀ x ∈ xs, 0 ≤ x) →
    ∀ q : ℚ, some q ∈ List.zipWith ddEntry xs (cummaxFrom m xs) → q ≤ 0 := by
  intro xs
  induction xs with
  | nil => intro m _ _ q hq; simp [cummaxFrom] at hq
  | cons x rest ih =>
    intro m hm hx q hq
    rw [cummaxFrom, List.zipWith_cons_cons] at hq
    rcases List.mem_cons.mp hq with h | h
    · by_cases hz : max m x = 0
      · rw [ddEntry, if_pos hz] at h; simp at h
      · rw [ddEntry, if_neg hz] at h
        simp only [Option.some.injEq] at h
        subst h
        have hmx : 0 < max m x := lt_of_le_of_ne (le_max_of_le_left hm) (Ne.symm hz)
        rw [div_nonpos_iff]
        right
        exact ⟨sub_nonpos.mpr (le_max_right m x), hmx.le⟩
    · exact ih (max m x) (le_max_of_le_left hm)
        (fun y hy => hx y (List.mem_cons_of_mem _ hy)) q h

lemma dd_cummaxFrom_exists : ∀ (xs : List ℚ) (m : ℚ), (∃ x ∈ xs, 0 < x) →
    ∃ q : ℚ, some q ∈ List.zipWith ddEntry xs (cummaxFrom m xs) := by
  intro xs
  induction xs with
  | nil => intro m h; simp at h
  | cons x rest ih =>
    intro m h
    rw [cummaxFrom, List.zipWith_cons_cons]
    obtain ⟨y, hy, hy0⟩ := h
    rcases List.mem_cons.mp hy with rfl | hmem
    · have hz : max m y ≠ 0 := ne_of_gt (lt_of_lt_of_le hy0 (le_max_right m y))
      exact ⟨(y - max m y) / max m y, by rw [ddEntry, if_neg hz]; exact List.mem_cons_self _ _⟩
    · obtain ⟨q, hq⟩ := ih (max m x) ⟨y, hmem, hy0⟩
      exact ⟨q, List.mem_cons_of_mem _ hq⟩

lemma dd_cummaxFrom_zero : ∀ (xs : List ℚ) (m : ℚ), List.Chain' (· ≤ ·) xs →
    (∀ y ∈ xs.head?, m ≤ y) →
    ∀ q : ℚ, some q ∈ List.zipWith ddEntry xs (cummaxFrom m xs) → q = 0 := by
  intro xs
  induction xs with
  | nil => intro m _ _ q hq; simp [cummaxFrom] at hq
  | cons x rest ih =>
    intro m hchain hhead q hq
    have hmx : m ≤ x := hhead x rfl
    rw [cummaxFrom, max_eq_right hmx, List.zipWith_cons_cons] at hq
    rcases List.mem_cons.mp hq with h | h
    · by_cases hz : x = 0
      · rw [ddEntry, if_pos hz] at h; simp at h
      · rw [ddEntry, if_neg hz] at h
        simp only [Option.some.injEq] at h
        subst h
        simp
    · exact ih x (List.Chain'.tail hchain) (List.chain'_cons'.mp hchain).1 q h

lemma drawdowns_nonpos {pvs : List ℚ} (h : ∀ x ∈ pvs, 0 ≤ x) :
    ∀ q : ℚ, some q ∈ drawdowns pvs → q ≤ 0 := by
  cases pvs with
  | nil => intro q hq; simp [drawdowns, cummax] at hq
  | cons x rest =>
    rw [drawdowns, cummax_eq_cummaxFrom]
    exact dd_cummaxFrom_nonpos (x :: rest) x (h x (List.mem_cons_self _ _)) h

lemma drawdowns_exists {pvs : List ℚ} (h : ∃ x ∈ pvs, 0 < x) :
    ∃ q : ℚ, some q ∈ drawdowns pvs := by
  cases pvs with
  | nil => simp at h
  | cons x rest =>
    rw [drawdowns, cummax_eq_cummaxFrom]
    exact dd_cummaxFrom_exists (x :: rest) x h

lemma drawdowns_zero {pvs : List ℚ} (h : List.Chain' (· ≤ ·) pvs) :
    ∀ q : ℚ, some q ∈ drawdowns pvs → q = 0 := by
  cases pvs with
  | nil => intro q hq; simp [drawdowns, cummax] at hq
  | cons x rest =>
    rw [drawdowns, cummax_eq_cummaxFrom]
    exact dd_cummaxFrom_zero (x :: rest) x h (fun y hy => by simp at hy; exact le_of_eq hy)

lemma runSim_totalShares (a : ℚ) : ∀ (l : List (PricePoint × Bool)) (sh inv : ℚ),
    (runSim a sh inv l).totalShares
      = sh + ((l.filter fun pb => pb.2).map fun pb => a / pb.1.close).sum := by
  intro l
  induction l with
  | nil => intro sh inv; simp [runSim]
  | cons pb rest ih =>
    obtain ⟨p, b⟩ := pb
    intro sh inv
    cases b with
    | true => simp [runSim, ih, List.filter_cons]; ring
    | false => simp [runSim, ih, List.filter_cons]

lemma runSim_totalInvested (a : ℚ) : ∀ (l : List (PricePoint × Bool)) (sh inv : ℚ),
    (runSim a sh inv l).totalInvested = inv + (l.countP fun pb => pb.2) * a := by
  intro l
  induction l with
  | nil => intro sh inv; simp [runSim]
  | cons pb rest ih =>
    obtain ⟨p, b⟩ := pb
    intro sh inv
    cases b with
    | true => simp [runSim, ih, List.countP_cons]; ring
    | false => simp [runSim, ih, List.countP_cons]

lemma runSim_portfolio_length (a : ℚ) : ∀ (l : List (PricePoint × Bool)) (sh inv : ℚ),
    (runSim a sh inv l).portfolioValues.length = l.length := by
  intro l
  induction l with
  | nil => intro sh inv; simp [runSim]
  | cons pb rest ih =>
    obtain ⟨p, b⟩ := pb
    intro sh inv
    simp [runSim, ih]

lemma runSim_invested_length (a : ℚ) : ∀ (l : List (PricePoint × Bool)) (sh inv : ℚ),
    (runSim a sh inv l).investedOverTime.length = l.length := by
  intro l
  induction l with
  | nil => intro sh inv; simp [runSim]
  | cons pb rest ih =>
    obtain ⟨p, b⟩ := pb
    intro sh inv
    simp [runSim, ih]

lemma getLast?_cons_of_ne_nil {α : Type} (x : α) {l : List α} (h : l ≠ []) :
    (x :: l).getLast? = l.getLast? := by
  cases l with
  | nil => exact absurd rfl h
  | cons y ys => exact List.getLast?_cons_cons

lemma getLast?_getD_cons {α : Type} (x d : α) (l : List α) :
    (x :: l).getLast?.getD d = l.getLast?.getD x := by
  cases l with
  | nil => simp
  | cons y ys =>
    rw [getLast?_cons_of_ne_nil x (by simp)]
    obtain ⟨z, hz⟩ := Option.isSome_iff_exists.mp
      (List.getLast?_isSome.mpr (show (y :: ys : List α) ≠ [] by simp))
    rw [hz, Option.getD_some, Option.getD_some]

lemma runSim_portfolio_getLast (a : ℚ) : ∀ (l : List (PricePoint × Bool)) (sh inv : ℚ),
    l ≠ [] →
    (runSim a sh inv l).portfolioValues.getLast?.getD 0
      = (runSim a sh inv l).totalShares * ((l.getLast?.map fun pb => pb.1.close).getD 0) := by
  intro l
  induction l with
  | nil => intro sh inv h; exact absurd rfl h
  | cons pb rest ih =>
    obtain ⟨p, b⟩ := pb
    intro sh inv _
    simp only [runSim]
    rw [getLast?_getD_cons]
    by_cases hr : rest = []
    · subst hr; cases b <;> simp [runSim]
    · have hlen : (runSim a (if b then sh + a / p.close else sh)
          (if b then inv + a else inv) rest).portfolioValues ≠ [] := by
        have := runSim_portfolio_length a rest
          (if b then sh + a / p.close else sh) (if b then inv + a else inv)
        intro hnil
        rw [hnil] at this
        exact hr (List.length_eq_zero.mp this.symm)
      obtain ⟨z, hz⟩ := Option.isSome_iff_exists.mp (List.getLast?_isSome.mpr hlen)
      have hih := ih (if b then sh + a / p.close else sh) (if b then inv + a else inv) hr
      rw [hz, Option.getD_some] at hih ⊢
      rw [getLast?_cons_of_ne_nil _ hr]
      exact hih

lemma runSim_invested_getLast (a : ℚ) : ∀ (l : List (PricePoint × Bool)) (sh inv : ℚ),
    (runSim a sh inv l).investedOverTime.getLast?.getD inv
      = (runSim a sh inv l).totalInvested := by
  intro l
  induction l with
  | nil => intro sh inv; simp [runSim]
  | cons pb rest ih =>
    obtain ⟨p, b⟩ := pb
    intro sh inv
    simp only [runSim]
    rw [getLast?_getD_cons]
    by_cases hr : rest = []
    · subst hr; cases b <;> simp [runSim]
    · have hlen : (runSim a (if b then sh + a / p.close else sh)
          (if b then inv + a else inv) rest).investedOverTime ≠ [] := by
        have := runSim_invested_length a rest
          (if b then sh + a / p.close else sh) (if b then inv + a else inv)
        intro hnil
        rw [hnil] at this
        exact hr (List.length_eq_zero.mp this.symm)
      obtain ⟨z, hz⟩ := Option.isSome_iff_exists.mp (List.getLast?_isSome.mpr hlen)
      have hih := ih (if b then sh + a / p.close else sh) (if b then inv + a else inv)
      rw [hz, Option.getD_some] at hih ⊢
      exact hih

lemma runSim_invested_chain (a : ℚ) (ha : 0 ≤ a) : ∀ (l : List (PricePoint × Bool)) (sh inv : ℚ),
    List.Chain' (· ≤ ·) (runSim a sh inv l).investedOverTime ∧
    ∀ x ∈ (runSim a sh inv l).investedOverTime, inv ≤ x := by
  intro l
  induction l with
  | nil => intro sh inv; simp [runSim]
  | cons pb rest ih =>
    obtain ⟨p, b⟩ := pb
    intro sh inv
    have hinv : inv ≤ (if b then inv + a else inv) := by
      cases b <;> simp [ha]
    obtain ⟨hc, hb⟩ := ih (if b then sh + a / p.close else sh) (if b then inv + a else inv)
    constructor
    · simp only [runSim]
      exact List.chain'_cons'.mpr ⟨fun y hy => hb y (List.mem_of_mem_head? hy), hc⟩
    · intro x hx
      simp only [runSim] at hx
      rcases List.mem_cons.mp hx with rfl | hx
      · exact hinv
      · exact le_trans hinv (hb x hx)

lemma runSim_portfolio_nonneg (a : ℚ) (ha : 0 ≤ a) : ∀ (l : List (PricePoint × Bool)) (sh inv : ℚ),
    0 ≤ sh → (∀ pb ∈ l, 0 < pb.1.close) →
    ∀ x ∈ (runSim a sh inv l).portfolioValues, 0 ≤ x := by
  intro l
  induction l with
  | nil => intro sh inv _ _; simp [runSim]
  | cons pb rest ih =>
    obtain ⟨p, b⟩ := pb
    intro sh inv hsh hcl
    have hc : 0 < p.close := hcl (p, b) (List.mem_cons_self _ _)
    have hsh' : 0 ≤ (if b then sh + a / p.close else sh) := by
      cases b
      · simpa using hsh
      · simp only [if_pos rfl]
        exact add_nonneg hsh (div_nonneg ha hc.le)
    intro x hx
    simp only [runSim] at hx
    rcases List.mem_cons.mp hx with rfl | hx
    · exact mul_nonneg hsh' hc.le
    · exact ih _ _ hsh' (fun q hq => hcl q (List.mem_cons_of_mem _ hq)) x hx

lemma runSim_portfolio_pos (a : ℚ) (ha : 0 < a) : ∀ (l : List (PricePoint × Bool)) (sh inv : ℚ),
    0 ≤ sh → (∀ pb ∈ l, 0 < pb.1.close) → (∃ pb ∈ l, pb.2 = true) →
    ∃ x ∈ (runSim a sh inv l).portfolioValues, 0 < x := by
  intro l
  induction l with
  | nil => intro sh inv _ _ h; simp at h
  | cons pb rest ih =>
    obtain ⟨p, b⟩ := pb
    intro sh inv hsh hcl hbuy
    have hc : 0 < p.close := hcl (p, b) (List.mem_cons_self _ _)
    obtain ⟨pb0, hmem, htrue⟩ := hbuy
    rcases List.mem_cons.mp hmem with rfl | hmem'
    · have hb : b = true := htrue
      subst hb
      refine ⟨(sh + a / p.close) * p.close, ?_, ?_⟩
      · simp [runSim]
      · exact mul_pos (lt_of_lt_of_le (div_pos ha hc) (le_add_of_nonneg_left hsh)) hc
    · have hsh' : 0 ≤ (if b then sh + a / p.close else sh) := by
        cases b
        · simpa using hsh
        · simp only [if_pos rfl]
          exact add_nonneg hsh (div_nonneg ha.le hc.le)
      obtain ⟨x, hx, hx0⟩ := ih _ _ hsh'
        (fun q hq => hcl q (List.mem_cons_of_mem _ hq)) ⟨pb0, hmem', htrue⟩
      exact ⟨x, by simp only [runSim]; exact List.mem_cons_of_mem _ hx, hx0⟩

lemma countP_snd_zip : ∀ (rows : List PricePoint) (mask : List Bool),
    mask.length = rows.length →
    ((rows.zip mask).countP fun pb => pb.2) = mask.count true := by
  intro rows
  induction rows with
  | nil =>
    intro mask h
    rw [List.length_nil] at h
    rw [List.length_eq_zero.mp h]
    simp
  | cons p rest ih =>
    intro mask h
    cases mask with
    | nil => simp at h
    | cons b mrest =>
      rw [List.zip_cons_cons, List.countP_cons, List.count_cons,
        ih mrest (by simpa using h)]
      cases b <;> simp

lemma getLast?_close_zip : ∀ (rows : List PricePoint) (mask : List Bool),
    mask.length = rows.length →
    (((rows.zip mask).getLast?.map fun pb => pb.1.close).getD 0)
      = ((rows.getLast?.map PricePoint.close).getD 0) := by
  intro rows
  induction rows with
  | nil =>
    intro mask h
    rw [List.length_nil] at h
    rw [List.length_eq_zero.mp h]
    simp
  | cons p rest ih =>
    intro mask h
    cases mask with
    | nil => simp at h
    | cons b mrest =>
      rw [List.zip_cons_cons]
      cases rest with
      | nil =>
        have : mrest = [] := List.length_eq_zero.mp (by simpa using h)
        subst this
        simp [PricePoint.close]
      | cons p2 rest2 =>
        cases mrest with
        | nil => simp at h
        | cons b2 mrest2 =>
          rw [List.zip_cons_cons, List.getLast?_cons_cons, List.getLast?_cons_cons,
            ← List.zip_cons_cons]
          exact ih (b2 :: mrest2) (by simpa using h)

lemma zip_ne_nil_of_lengths {rows : List PricePoint} {mask : List Bool}
    (hne : rows ≠ []) (hlen : mask.length = rows.length) :
    rows.zip mask ≠ [] := by
  have h1 : (rows.zip mask).length = rows.length := by
    rw [List.length_zip, hlen, min_self]
  intro hnil
  rw [hnil] at h1
  exact hne (List.length_eq_zero.mp h1.symm)

lemma simulate_maxDD (rows : List PricePoint) (a : ℚ) (mask : List Bool) :
    (simulate rows a mask).maxDrawdownPct
      = ((minSkipNA (drawdowns (runSim a 0 0 (rows.zip mask)).portfolioValues)).map
          fun d => d * 100).map pyRound2 := rfl

lemma sim_minDD_some_nonpos (rows : List PricePoint) (a : ℚ) (mask : List Bool)
    (hpos : ∀ p ∈ rows, 0 < p.close) (ha : 0 < a)
    (hbuy : ∃ pb ∈ rows.zip mask, pb.2 = true) :
    ∃ m, minSkipNA (drawdowns (runSim a 0 0 (rows.zip mask)).portfolioValues) = some m
      ∧ m ≤ 0 := by
  have hcl : ∀ pb ∈ rows.zip mask, 0 < pb.1.close := by
    intro pb hpb
    obtain ⟨p, b⟩ := pb
    exact hpos p (List.of_mem_zip hpb).1
  have hnn := runSim_portfolio_nonneg a ha.le (rows.zip mask) 0 0 le_rfl hcl
  have hex := runSim_portfolio_pos a ha (rows.zip mask) 0 0 le_rfl hcl hbuy
  obtain ⟨q, hq⟩ := drawdowns_exists hex
  obtain ⟨m, hm⟩ := minSkipNA_isSome hq
  exact ⟨m, hm, drawdowns_nonpos hnn m (minSkipNA_mem hm)⟩

lemma idxmaxP_spec (b : String × ℚ) (l : List (String × ℚ)) :
    idxmaxP b l ∈ b :: l ∧ (∀ x ∈ b :: l, x.2 ≤ (idxmaxP b l).2) ∧
    ∃ pre post, b :: l = pre ++ idxmaxP b l :: post ∧ ∀ x ∈ pre, x.2 < (idxmaxP b l).2 := by
  induction l generalizing b with
  | nil =>
    refine ⟨List.mem_cons_self _ _, ?_, [], [], by simp [idxmaxP], by simp⟩
    intro x hx
    rcases List.mem_cons.mp hx with rfl | hx
    · simp [idxmaxP]
    · simp at hx
  | cons x rest ih =>
    rw [idxmaxP]
    by_cases h : b.2 < x.2
    · rw [if_pos h]
      obtain ⟨hmem, hle, pre, post, hdec, hpre⟩ := ih x
      have hxle : x.2 ≤ (idxmaxP x rest).2 := hle x (List.mem_cons_self _ _)
      refine ⟨List.mem_cons_of_mem _ hmem, ?_, b :: pre, post, by rw [List.cons_append, hdec],
        ?_⟩
      · intro y hy
        rcases List.mem_cons.mp hy with rfl | hy
        · exact le_trans h.le hxle
        · exact hle y hy
      · intro y hy
        rcases List.mem_cons.mp hy with rfl | hy
        · exact lt_of_lt_of_le h hxle
        · exact hpre y hy
    · rw [if_neg h]
      push_neg at h
      obtain ⟨hmem, hle, pre, post, hdec, hpre⟩ := ih b
      have hble : b.2 ≤ (idxmaxP b rest).2 := hle b (List.mem_cons_self _ _)
      constructor
      · rcases List.mem_cons.mp hmem with hm | hm
        · rw [hm]; exact List.mem_cons_self _ _
        · exact List.mem_cons_of_mem _ (List.mem_cons_of_mem _ hm)
      constructor
      · intro y hy
        rcases List.mem_cons.mp hy with rfl | hy
        · exact hble
        rcases List.mem_cons.mp hy with rfl | hy
        · exact le_trans h hble
        · exact hle y (List.mem_cons_of_mem _ hy)
      · cases pre with
        | nil =>
          simp only [List.nil_append] at hdec
          have hb : idxmaxP b rest = b := (List.cons.injEq _ _ _ _).mp hdec.symm |>.1
          exact ⟨[], x :: rest, by rw [hb]; rfl, by simp⟩
        | cons q pre2 =>
          rw [List.cons_append] at hdec
          have hqb : q = b := ((List.cons.injEq _ _ _ _).mp hdec).1.symm
          have hrest : rest = pre2 ++ idxmaxP b rest :: post :=
            ((List.cons.injEq _ _ _ _).mp hdec).2
          have hbm : b.2 < (idxmaxP b rest).2 := by
            have := hpre q (List.mem_cons_self _ _)
            rwa [hqb] at this
          refine ⟨b :: x :: pre2, post, ?_, ?_⟩
          · rw [List.cons_append, List.cons_append, ← hrest]
          · intro y hy
            rcases List.mem_cons.mp hy with rfl | hy
            · exact hbm
            rcases List.mem_cons.mp hy with rfl | hy
            · exact lt_of_le_of_lt h hbm
            · exact hpre y (List.mem_cons_of_mem _ hy)

lemma score_valuation_bounds (pe : ℚ) :
    0 ≤ score_valuation pe ∧ score_valuation pe ≤ 20 := by
  unfold score_valuation
  split_ifs <;> norm_num

lemma score_profitability_bounds (eps : ℚ) :
    0 ≤ score_profitability eps ∧ score_profitability eps ≤ 20 := by
  unfold score_profitability
  split_ifs <;> norm_num

lemma score_volatility_bounds (beta : ℚ) :
    0 ≤ score_volatility beta ∧ score_volatility beta ≤ 20 := by
  unfold score_volatility
  split_ifs <;> norm_num

lemma score_size_bounds (marketcap : ℚ) :
    0 ≤ score_size marketcap ∧ score_size marketcap ≤ 20 := by
  unfold score_size
  split_ifs <;> norm_num

lemma score_price_strength_bounds (price high52 low52 : ℚ) :
    0 ≤ score_price_strength price high52 low52 ∧
    score_price_strength price high52 low52 ≤ 20 := by
  unfold score_price_strength
  by_cases h : high52 = low52
  · simp [h]
  · simp only [if_neg h]
    split_ifs <;> norm_num

/-- Claim C5: for every price series and strategy, simulate's final
portfolio value equals total accumulated shares times the last close,
the total shares equal the sum of `amount / close` over the buy days,
and the gain equals final value minus total invested exactly, at full
internal precision before any reporting rounding. -/
theorem C5_sim_identities (rows : List PricePoint) (amount : ℚ) (mask : List Bool)
    (hne : rows ≠ []) (hlen : mask.length = rows.length)
    (hpos : ∀ p ∈ rows, 0 < p.close) :
    simFinalValue rows amount mask
      = simTotalShares rows amount mask * ((rows.getLast?.map PricePoint.close).getD 0) ∧
    simTotalShares rows amount mask
      = (((rows.zip mask).filter fun pb => pb.2).map fun pb => amount / pb.1.close).sum ∧
    simGain rows amount mask
      = simFinalValue rows amount mask - simTotalInvested rows amount mask := by
  refine ⟨?_, ?_, rfl⟩
  · have hz := zip_ne_nil_of_lengths hne hlen
    have h1 := runSim_portfolio_getLast amount (rows.zip mask) 0 0 hz
    simp only [simFinalValue, simTotalShares, simTrace]
    rw [h1, getLast?_close_zip rows mask hlen]
  · simp only [simTotalShares, simTrace]
    rw [runSim_totalShares]
    ring

/-- Witness for C5 at the concrete two-day series of the spec's
Scenario 2: a single 100-dollar buy at close 10 followed by a close of
20. -/
theorem C5_sim_identities_witness :
    (([⟨0, 10⟩, ⟨1, 20⟩] : List PricePoint) ≠ [] ∧
     ([true, false] : List Bool).length = ([⟨0, 10⟩, ⟨1, 20⟩] : List PricePoint).length ∧
     ∀ p ∈ ([⟨0, 10⟩, ⟨1, 20⟩] : List PricePoint), 0 < p.close) ∧
    (simFinalValue [⟨0, 10⟩, ⟨1, 20⟩] 100 [true, false]
      = simTotalShares [⟨0, 10⟩, ⟨1, 20⟩] 100 [true, false]
          * ((([⟨0, 10⟩, ⟨1, 20⟩] : List PricePoint).getLast?.map PricePoint.close).getD 0) ∧
    simTotalShares [⟨0, 10⟩, ⟨1, 20⟩] 100 [true, false]
      = ((([⟨0, 10⟩, ⟨1, 20⟩] : List PricePoint).zip [true, false]).filter
          (fun pb => pb.2) |>.map fun pb => (100 : ℚ) / pb.1.close).sum ∧
    simGain [⟨0, 10⟩, ⟨1, 20⟩] 100 [true, false]
      = simFinalValue [⟨0, 10⟩, ⟨1, 20⟩] 100 [true, false]
          - simTotalInvested [⟨0, 10⟩, ⟨1, 20⟩] 100 [true, false]) :=
  ⟨⟨by simp, by simp, by norm_num [List.forall_mem_cons]⟩,
    C5_sim_identities [⟨0, 10⟩, ⟨1, 20⟩] 100 [true, false] (by simp) (by simp)
      (by norm_num [List.forall_mem_cons])⟩

/-- Claim C6: the valuation scorer realizes exactly the claimed buckets
with their boundary inclusivities: pe ≤ 0 → 0; 0 < pe < 10 → 15;
10 ≤ pe ≤ 20 → 20; 20 < pe ≤ 30 → 15; 30 < pe ≤ 50 → 10; pe > 50 → 5,
for every rational pe. -/
theorem C6_valuation_buckets_exact (pe : ℚ) :
    score_valuation pe = valuationClaimBuckets pe := by
  unfold score_valuation valuationClaimBuckets
  split_ifs <;> first | rfl | linarith

/-- Claim C8: each of the five factor scorers returns an integer in
[0, 20] on every rational input, and the composite is the sum of the
five factor scores, hence lies in [0, 100]. -/
theorem C8_scores_bounded_composite (m : CompanyMetrics) :
    (0 ≤ score_valuation m.pe ∧ score_valuation m.pe ≤ 20) ∧
    (0 ≤ score_profitability m.eps ∧ score_profitability m.eps ≤ 20) ∧
    (0 ≤ score_volatility m.beta ∧ score_volatility m.beta ≤ 20) ∧
    (0 ≤ score_size m.marketcap ∧ score_size m.marketcap ≤ 20) ∧
    (0 ≤ score_price_strength m.price m.high52 m.low52 ∧
      score_price_strength m.price m.high52 m.low52 ≤ 20) ∧
    (compute_risk_row m).composite
      = score_valuation m.pe + score_profitability m.eps + score_volatility m.beta
        + score_size m.marketcap + score_price_strength m.price m.high52 m.low52 ∧
    0 ≤ (compute_risk_row m).composite ∧ (compute_risk_row m).composite ≤ 100 := by
  obtain ⟨h1a, h1b⟩ := score_valuation_bounds m.pe
  obtain ⟨h2a, h2b⟩ := score_profitability_bounds m.eps
  obtain ⟨h3a, h3b⟩ := score_volatility_bounds m.beta
  obtain ⟨h4a, h4b⟩ := score_size_bounds m.marketcap
  obtain ⟨h5a, h5b⟩ := score_price_strength_bounds m.price m.high52 m.low52
  refine ⟨⟨h1a, h1b⟩, ⟨h2a, h2b⟩, ⟨h3a, h3b⟩, ⟨h4a, h4b⟩, ⟨h5a, h5b⟩, rfl, ?_, ?_⟩
  · show (0 : ℤ) ≤ score_valuation m.pe + score_profitability m.eps + score_volatility m.beta
      + score_size m.marketcap + score_price_strength m.price m.high52 m.low52
    linarith
  · show score_valuation m.pe + score_profitability m.eps + score_volatility m.beta
      + score_size m.marketcap + score_price_strength m.price m.high52 m.low52 ≤ (100 : ℤ)
    linarith

/-- Claim C9: the invested series has one entry per input row, is
monotone non-decreasing, and its final entry is exactly the buy count
times the per-buy amount, in exact arithmetic. -/
theorem C9_invested_series_monotone (rows : List PricePoint) (amount : ℚ) (mask : List Bool)
    (hlen : mask.length = rows.length) (ha : 0 ≤ amount) :
    List.Chain' (· ≤ ·) (simTrace rows amount mask).investedOverTime ∧
    (simTrace rows amount mask).investedOverTime.length = rows.length ∧
    (simTrace rows amount mask).investedOverTime.getLast?.getD 0
      = ((simulate rows amount mask).buyCount : ℚ) * amount := by
  refine ⟨?_, ?_, ?_⟩
  · exact (runSim_invested_chain amount ha (rows.zip mask) 0 0).1
  · simp only [simTrace]
    rw [runSim_invested_length, List.length_zip, hlen, min_self]
  · have hb : (simulate rows amount mask).buyCount = mask.count true := rfl
    simp only [simTrace, hb]
    rw [runSim_invested_getLast, runSim_totalInvested, countP_snd_zip rows mask hlen]
    ring

/-- Witness for C9 at the spec's Scenario 1: three days at close 10,
buying 10 dollars daily. -/
theorem C9_invested_series_monotone_witness :
    (([true, true, true] : List Bool).length
        = ([⟨0, 10⟩, ⟨1, 10⟩, ⟨2, 10⟩] : List PricePoint).length ∧ (0 : ℚ) ≤ 10) ∧
    (List.Chain' (· ≤ ·) (simTrace [⟨0, 10⟩, ⟨1, 10⟩, ⟨2, 10⟩] 10 [true, true, true]).investedOverTime ∧
    (simTrace [⟨0, 10⟩, ⟨1, 10⟩, ⟨2, 10⟩] 10 [true, true, true]).investedOverTime.length
      = ([⟨0, 10⟩, ⟨1, 10⟩, ⟨2, 10⟩] : List PricePoint).length ∧
    (simTrace [⟨0, 10⟩, ⟨1, 10⟩, ⟨2, 10⟩] 10 [true, true, true]).investedOverTime.getLast?.getD 0
      = ((simulate [⟨0, 10⟩, ⟨1, 10⟩, ⟨2, 10⟩] 10 [true, true, true]).buyCount : ℚ) * 10) :=
  ⟨⟨by simp, by norm_num⟩,
    C9_invested_series_monotone [⟨0, 10⟩, ⟨1, 10⟩, ⟨2, 10⟩] 10 [true, true, true]
      (by simp) (by norm_num)⟩

/-- Claim C10: the price-strength scorer is total with no clamping: for
high52 ≠ low52 it always lands in the value set 4, 8, 12, 16, 20, and
when high52 > low52, a price above high52 scores 20 and a price below
low52 scores 4. -/
theorem C10_price_strength_total (price high52 low52 : ℚ) (hne : high52 ≠ low52) :
    score_price_strength price high52 low52 ∈ ([4, 8, 12, 16, 20] : List ℤ) ∧
    (low52 < high52 → high52 < price → score_price_strength price high52 low52 = 20) ∧
    (low52 < high52 → price < low52 → score_price_strength price high52 low52 = 4) := by
  refine ⟨?_, ?_, ?_⟩
  · unfold score_price_strength
    rw [if_neg hne]
    split_ifs <;> simp
  · intro hlh hp
    have hd : 0 < high52 - low52 := by linarith
    have h1 : 1 < (price - low52) / (high52 - low52) := (one_lt_div hd).mpr (by linarith)
    unfold score_price_strength
    rw [if_neg hne, if_pos (by linarith)]
  · intro hlh hp
    have hd : 0 < high52 - low52 := by linarith
    have h1 : (price - low52) / (high52 - low52) < 0 :=
      div_neg_of_neg_of_pos (by linarith) hd
    unfold score_price_strength
    rw [if_neg hne, if_neg (by linarith), if_neg (by linarith), if_neg (by linarith),
      if_neg (by linarith)]

/-- Witness for C10 with range 1 to 10 and an out-of-range price 20:
the scorer returns 20 without error. -/
theorem C10_price_strength_total_witness :
    ((10 : ℚ) ≠ 1) ∧
    (score_price_strength 20 10 1 ∈ ([4, 8, 12, 16, 20] : List ℤ) ∧
    ((1 : ℚ) < 10 → (10 : ℚ) < 20 → score_price_strength 20 10 1 = 20) ∧
    ((1 : ℚ) < 10 → (20 : ℚ) < 1 → score_price_strength 20 10 1 = 4)) :=
  ⟨by norm_num, C10_price_strength_total 20 10 1 (by norm_num)⟩

/-- Claim C7: for every price series with at least one buy day (and
positive closes and buy amount), the reported max drawdown is a defined
number that is at most 0, and it is exactly 0 whenever the recorded
portfolio values are non-decreasing. -/
theorem C7_max_drawdown_nonpos (rows : List PricePoint) (amount : ℚ) (mask : List Bool)
    (hpos : ∀ p ∈ rows, 0 < p.close) (ha : 0 < amount)
    (hbuy : ∃ pb ∈ rows.zip mask, pb.2 = true) :
    (∃ d, (simulate rows amount mask).maxDrawdownPct = some d ∧ d ≤ 0) ∧
    (List.Chain' (· ≤ ·) (simTrace rows amount mask).portfolioValues →
      (simulate rows amount mask).maxDrawdownPct = some 0) := by
  obtain ⟨m, hm, hm0⟩ := sim_minDD_some_nonpos rows amount mask hpos ha hbuy
  constructor
  · refine ⟨pyRound2 (m * 100), ?_, ?_⟩
    · rw [simulate_maxDD, hm]
      rfl
    · exact pyRound2_nonpos (by linarith)
  · intro hchain
    simp only [simTrace] at hchain
    have hq0 := drawdowns_zero hchain m (minSkipNA_mem hm)
    rw [simulate_maxDD, hm, hq0]
    show some (pyRound2 (0 * 100)) = some 0
    rw [zero_mul, pyRound2_zero]

/-- Witness for C7 at a two-day rising series with daily buys. -/
theorem C7_max_drawdown_nonpos_witness :
    ((∀ p ∈ ([⟨0, 10⟩, ⟨1, 20⟩] : List PricePoint), 0 < p.close) ∧ (0 : ℚ) < 2 ∧
      ∃ pb ∈ (([⟨0, 10⟩, ⟨1, 20⟩] : List PricePoint).zip [true, true]), pb.2 = true) ∧
    ((∃ d, (simulate [⟨0, 10⟩, ⟨1, 20⟩] 2 [true, true]).maxDrawdownPct = some d ∧ d ≤ 0) ∧
    (List.Chain' (· ≤ ·) (simTrace [⟨0, 10⟩, ⟨1, 20⟩] 2 [true, true]).portfolioValues →
      (simulate [⟨0, 10⟩, ⟨1, 20⟩] 2 [true, true]).maxDrawdownPct = some 0)) :=
  ⟨⟨by norm_num [List.forall_mem_cons], by norm_num,
      ⟨(⟨0, 10⟩, true), by simp, rfl⟩⟩,
    C7_max_drawdown_nonpos [⟨0, 10⟩, ⟨1, 20⟩] 2 [true, true]
      (by norm_num [List.forall_mem_cons]) (by norm_num)
      ⟨(⟨0, 10⟩, true), by simp, rfl⟩⟩

/-- Counterexample to claim C2: on the non-empty one-point series with
close 10 and no buy, the running maximum is 0 at index 0 and the
reported max_drawdown_pct is NaN (modelled `none`), not a well-defined
number; the claim asserts it is never NaN for any non-empty series. -/
theorem C2_drawdown_nan_counterexample :
    (simulate [⟨0, 10⟩] 1 [false]).maxDrawdownPct = none ∧
    drawdowns (simTrace [⟨0, 10⟩] 1 [false]).portfolioValues ≠ [some 0] := by
  constructor
  · norm_num [simulate, runSim, drawdowns, cummax, cummaxFrom, ddEntry, minSkipNA]
  · norm_num [simTrace, runSim, drawdowns, cummax, cummaxFrom, ddEntry]
    simp

/-- Claim C2 as amended: at an index whose running maximum is 0 the
drawdown entry is NaN (`none`) — skipped by the minimum — rather than
0, and the reported max_drawdown_pct is a well-defined number whenever
at least one buy occurs in the series (with positive closes and a
positive amount); with no buy it is NaN. -/
theorem C2_drawdown_nan_guard (rows : List PricePoint) (amount : ℚ) (mask : List Bool)
    (hpos : ∀ p ∈ rows, 0 < p.close) (ha : 0 < amount)
    (hbuy : ∃ pb ∈ rows.zip mask, pb.2 = true) :
    (∀ pv rm : ℚ, rm = 0 → ddEntry pv rm = none) ∧
    ∃ d, (simulate rows amount mask).maxDrawdownPct = some d := by
  constructor
  · intro pv rm h
    simp [ddEntry, h]
  · obtain ⟨m, hm, _⟩ := sim_minDD_some_nonpos rows amount mask hpos ha hbuy
    refine ⟨pyRound2 (m * 100), ?_⟩
    rw [simulate_maxDD, hm]
    rfl

/-- Witness for C2 at a two-day series with a single first-day buy. -/
theorem C2_drawdown_nan_guard_witness :
    ((∀ p ∈ ([⟨0, 10⟩, ⟨1, 20⟩] : List PricePoint), 0 < p.close) ∧ (0 : ℚ) < 1 ∧
      ∃ pb ∈ (([⟨0, 10⟩, ⟨1, 20⟩] : List PricePoint).zip [true, false]), pb.2 = true) ∧
    ((∀ pv rm : ℚ, rm = 0 → ddEntry pv rm = none) ∧
      ∃ d, (simulate [⟨0, 10⟩, ⟨1, 20⟩] 1 [true, false]).maxDrawdownPct = some d) :=
  ⟨⟨by norm_num [List.forall_mem_cons], by norm_num,
      ⟨(⟨0, 10⟩, true), by simp, rfl⟩⟩,
    C2_drawdown_nan_guard [⟨0, 10⟩, ⟨1, 20⟩] 1 [true, false]
      (by norm_num [List.forall_mem_cons]) (by norm_num)
      ⟨(⟨0, 10⟩, true), by simp, rfl⟩⟩

/-- Counterexample to claim C3: the caller's guard rejects the 1-point
series (so a 1-point series does not reach simulation, contradicting
"produces a valid result, no failure"), while `simulate` on the
0-point series does not fail with any error — it returns a result,
whose max drawdown is NaN. -/
theorem C3_short_series_counterexample :
    enoughData [⟨0, 10⟩] = false ∧
    (simulate [] 1 []).maxDrawdownPct = none ∧
    (simulate [] 1 []).totalInvested = 0 := by
  refine ⟨by simp [enoughData], ?_, ?_⟩
  · norm_num [simulate, runSim, drawdowns, cummax, minSkipNA]
  · norm_num [simulate, runSim, pyRound2, bankRound]

/-- Claim C3 as amended: the caller's not-enough-data guard rejects
every series with fewer than 2 points — the 0-point and the 1-point
series alike — before the engine runs; `simulate` itself raises no
error on a 0-point series, returning a degenerate result with zero
invested, zero final value and NaN max drawdown; and on a 1-point
series with a buy it returns a valid result with zero drawdown. -/
theorem C3_short_series_behavior (p : PricePoint) (a : ℚ)
    (hc : 0 < p.close) (ha : 0 < a) :
    enoughData [] = false ∧ enoughData [p] = false ∧
    (simulate [] a []).totalInvested = 0 ∧
    (simulate [] a []).finalValue = 0 ∧
    (simulate [] a []).maxDrawdownPct = none ∧
    (simulate [p] a [true]).maxDrawdownPct = some 0 := by
  have hc' : p.close ≠ 0 := ne_of_gt hc
  have ha' : a ≠ 0 := ne_of_gt ha
  refine ⟨by simp [enoughData], by simp [enoughData], ?_, ?_, ?_, ?_⟩
  · norm_num [simulate, runSim, pyRound2, bankRound]
  · norm_num [simulate, runSim, pyRound2, bankRound]
  · norm_num [simulate, runSim, drawdowns, cummax, minSkipNA]
  · have hpv : (0 + a / p.close) * p.close = a := by
      field_simp
    norm_num [simulate, runSim, drawdowns, cummax, cummaxFrom, ddEntry, minSkipNA,
      hpv, ha', pyRound2_zero]
    rw [if_neg hc']
    exact ⟨0, rfl, by rw [zero_mul, pyRound2_zero]⟩

/-- Witness for the amended C3 at close 10 and amount 1. -/
theorem C3_short_series_behavior_witness :
    ((0 : ℚ) < (⟨0, 10⟩ : PricePoint).close ∧ (0 : ℚ) < 1) ∧
    (enoughData [] = false ∧ enoughData [⟨0, 10⟩] = false ∧
    (simulate [] 1 []).totalInvested = 0 ∧
    (simulate [] 1 []).finalValue = 0 ∧
    (simulate [] 1 []).maxDrawdownPct = none ∧
    (simulate [⟨0, 10⟩] 1 [true]).maxDrawdownPct = some 0) :=
  ⟨⟨by norm_num, by norm_num⟩,
    C3_short_series_behavior ⟨0, 10⟩ 1 (by norm_num) (by norm_num)⟩

/-- Counterexample to claim C1: for MarketCap = 100e9 the size scorer
returns 18 (the [50e9, 200e9) bucket), not 15, so for the Scenario 3
row the composite is 88, not 85. -/
theorem C1_scenario3_counterexample :
    score_size (100000000000 : ℚ) = 18 ∧
    (compute_risk_row mC1).composite = 88 ∧
    ¬(score_size (100000000000 : ℚ) = 15 ∧ (compute_risk_row mC1).composite = 85) := by
  refine ⟨?_, ?_, ?_⟩
  · norm_num [score_size]
  · norm_num [mC1, compute_risk_row, score_valuation, score_profitability,
      score_volatility, score_size, score_price_strength]
  · rintro ⟨h, -⟩
    norm_num [score_size] at h

/-- Claim C1 as amended: for the input PE=15, EPS=4, Beta=0.9,
MarketCap=100e9, Price=90, High52=100, Low52=50, the risk scorer
produces Valuation=20, Profitability=15, Volatility=15, Size=18,
PriceStrength=20, composite 88 and the label "Low Risk". -/
theorem C1_scenario3_scores :
    compute_risk_scores [mC1] = [⟨20, 15, 15, 18, 20, 88, "Low Risk"⟩] := by
  norm_num [compute_risk_scores, mC1, compute_risk_row, score_valuation,
    score_profitability, score_volatility, score_size, score_price_strength, risk_label]

/-- Counterexample to claim C4: on the two-day series with closes 1000
then 1001 and weekly budget 1, the comparator selects the Daily
strategy (all rounded gains tie at 0 and Daily is first in generation
order), but the surviving strategy "Every Monday" has a strictly larger
exact gain_abs than Daily — the selected strategy does not maximize
gain_abs as the claim states. -/
theorem C4_best_gain_counterexample :
    best_strategy exC4 1 = some "Daily ($/5 per day)" ∧
    ("Daily ($/5 per day)", simulate exC4 (1 / 5) [true, true]) ∈ stratResults exC4 1 ∧
    ("Every Monday", simulate exC4 1 [true, false]) ∈ stratResults exC4 1 ∧
    simGain exC4 (1 / 5) [true, true] < simGain exC4 1 [true, false] := by
  have hb : ((0 : ℕ) == 1) = false := rfl
  have hb' : ((1 : ℕ) == 0) = false := rfl
  have hD : (simulate [⟨0, 1000⟩, ⟨1, 1001⟩] (1 / 5) [true, true]).gainAbs = 0 := by
    norm_num [simulate, runSim, pyRound2, bankRound]
  have hM : (simulate [⟨0, 1000⟩, ⟨1, 1001⟩] 1 [true, false]).gainAbs = 0 := by
    norm_num [simulate, runSim, pyRound2, bankRound]
  have hT : (simulate [⟨0, 1000⟩, ⟨1, 1001⟩] 1 [false, true]).gainAbs = 0 := by
    norm_num [simulate, runSim, pyRound2, bankRound]
  refine ⟨?_, ?_, ?_, ?_⟩
  · simp only [best_strategy, stratResults, surviving, strategyList, WEEKDAYS, List.enum,
      List.enumFrom, List.map_cons, List.map_nil, List.filter_cons, List.filter_nil,
      List.count_cons, List.count_nil, Function.comp, Nat.reduceMod, exC4, hb, hb']
    norm_num [hD, hM, hT, idxmaxP]
  · simp only [stratResults, surviving, strategyList, WEEKDAYS, List.enum,
      List.enumFrom, List.map_cons, List.map_nil, List.filter_cons, List.filter_nil,
      List.count_cons, List.count_nil, Nat.reduceMod, exC4, hb, hb']
    norm_num
  · simp only [stratResults, surviving, strategyList, WEEKDAYS, List.enum,
      List.enumFrom, List.map_cons, List.map_nil, List.filter_cons, List.filter_nil,
      List.count_cons, List.count_nil, Nat.reduceMod, exC4, hb, hb']
    norm_num
    right
    left
    decide
  · norm_num [exC4, simGain, simFinalValue, simTotalInvested, simTrace, runSim]

/-- Claim C4 as amended: the comparator selects the surviving strategy
whose rounded gain (the "Gain ($)" column, rounded to 2 decimals) is
maximal, and on ties of the rounded gain the strategy first
encountered in generation order (Daily, then Every Monday through
Every Friday) is selected: every surviving strategy listed before the
selected one has a strictly smaller rounded gain, and none has a
larger one. -/
theorem C4_best_rounded_gain (rows : List PricePoint) (w : ℚ)
    (g : String × ℚ) (gs : List (String × ℚ))
    (hres : (stratResults rows w).map (fun r => (r.1, r.2.gainAbs)) = g :: gs) :
    ∃ m ∈ g :: gs, best_strategy rows w = some m.1 ∧
      (∀ x ∈ g :: gs, x.2 ≤ m.2) ∧
      ∃ pre post, g :: gs = pre ++ m :: post ∧ ∀ x ∈ pre, x.2 < m.2 := by
  obtain ⟨hmem, hle, pre, post, hdec, hpre⟩ := idxmaxP_spec g gs
  refine ⟨idxmaxP g gs, hmem, ?_, hle, pre, post, hdec, hpre⟩
  unfold best_strategy
  rw [hres]

/-- Witness for the amended C4 on the two-day series: the three
surviving strategies all have rounded gain 0 and Daily, first in
generation order, is selected. -/
theorem C4_best_rounded_gain_witness :
    (stratResults exC4 1).map (fun r => (r.1, r.2.gainAbs))
        = [("Daily ($/5 per day)", (0 : ℚ)), ("Every Monday", 0), ("Every Tuesday", 0)] ∧
    ∃ m ∈ [("Daily ($/5 per day)", (0 : ℚ)), ("Every Monday", 0), ("Every Tuesday", 0)],
      best_strategy exC4 1 = some m.1 ∧
      (∀ x ∈ [("Daily ($/5 per day)", (0 : ℚ)), ("Every Monday", 0), ("Every Tuesday", 0)],
        x.2 ≤ m.2) ∧
      ∃ pre post,
        [("Daily ($/5 per day)", (0 : ℚ)), ("Every Monday", 0), ("Every Tuesday", 0)]
          = pre ++ m :: post ∧ ∀ x ∈ pre, x.2 < m.2 := by
  have hb : ((0 : ℕ) == 1) = false := rfl
  have hb' : ((1 : ℕ) == 0) = false := rfl
  have hD : (simulate [⟨0, 1000⟩, ⟨1, 1001⟩] (1 / 5) [true, true]).gainAbs = 0 := by
    norm_num [simulate, runSim, pyRound2, bankRound]
  have hM : (simulate [⟨0, 1000⟩, ⟨1, 1001⟩] 1 [true, false]).gainAbs = 0 := by
    norm_num [simulate, runSim, pyRound2, bankRound]
  have hT : (simulate [⟨0, 1000⟩, ⟨1, 1001⟩] 1 [false, true]).gainAbs = 0 := by
    norm_num [simulate, runSim, pyRound2, bankRound]
  have hres : (stratResults exC4 1).map (fun r => (r.1, r.2.gainAbs))
      = [("Daily ($/5 per day)", (0 : ℚ)), ("Every Monday", 0), ("Every Tuesday", 0)] := by
    simp only [stratResults, surviving, strategyList, WEEKDAYS, List.enum,
      List.enumFrom, List.map_cons, List.map_nil, List.filter_cons, List.filter_nil,
      List.count_cons, List.count_nil, Nat.reduceMod, exC4, hb, hb']
    norm_num [hD, hM, hT]
    decide
  exact ⟨hres, C4_best_rounded_gain exC4 1 _ _ hres⟩
